import Mathlib

/-!
Shallow embedding of `src/langchain_google_spanner/vector_store.py`
(SpannerVectorStore) and proofs about the claims of the specification.

Conventions of the embedding:
* Python values crossing the storage boundary (row cells, metadata dict
  values) are modelled by the inductive type `Value`; the Python `None`
  (SQL NULL) is `Value.vnull`.
* Python dicts are modelled as insertion-ordered association lists
  (`List (String × _)`); updating an existing key keeps its position,
  inserting a new key appends at the end, and lookup finds the first
  matching entry — exactly the observable behaviour of a Python dict.
* Side effects on the collaborators (embedding calls, batch writes,
  parameterized snapshot reads, transactional updates) are reified as
  explicit effect values returned by the modelled operations.
-/

set_option linter.unusedVariables false

namespace SpannerVS

/-- Model of a Python value stored in a row cell or a metadata dict.
`vnull` models Python `None` / SQL NULL; `vjson` models a `JsonObject`
(a dict), as an insertion-ordered association list. -/
inductive Value where
  | vnull
  | vstr (s : String)
  | vint (n : Int)
  | varr (elems : List Value)
  | vjson (entries : List (String × Value))

/-- Python truthiness (`if row[...]:`) for the values we model:
`None`, `""`, `0`, `[]` and `{}` are falsy, everything else truthy. -/
def Value.truthy : Value → Bool
  | .vnull => false
  | .vstr s => !s.isEmpty
  | .vint n => n != 0
  | .varr l => !l.isEmpty
  | .vjson l => !l.isEmpty

/-- Python `x is None` for a modelled value. -/
def Value.isNull : Value → Bool
  | .vnull => true
  | _ => false

/-- Database dialect, from `google.cloud.spanner_admin_database_v1.types.DatabaseDialect`.
The source only ever tests `== DatabaseDialect.POSTGRESQL`, treating every
other dialect as Google standard SQL. -/
inductive DatabaseDialect where
  | GOOGLE_STANDARD_SQL
  | POSTGRESQL
deriving DecidableEq, Repr

/-- `DistanceStrategy` enum of the source (the misspelling `EUCLIDEIAN`
is the source's own). -/
inductive DistanceStrategy where
  | COSINE
  | EUCLIDEIAN
deriving DecidableEq, Repr

/-- `GoogleSqlSemnatics.getDistanceFunction` from the source. -/
def googleSqlGetDistanceFunction (distance_strategy : DistanceStrategy) : String :=
  if distance_strategy = DistanceStrategy.COSINE then "COSINE_DISTANCE"
  else "EUCLIDEAN_DISTANCE"

/-- `PGSqlSemnatics.getDistanceFunction` from the source. -/
def pgSqlGetDistanceFunction (distance_strategy : DistanceStrategy) : String :=
  if distance_strategy = DistanceStrategy.COSINE then "spanner.cosine_distance"
  else "spanner.euclidean_distance"

/-- Dispatch of `self._dialect_semantics` performed in `__init__`:
`PGSqlSemnatics` when the database dialect is POSTGRESQL, else
`GoogleSqlSemnatics`. -/
def dialectDistanceFunction (dialect : DatabaseDialect) (ds : DistanceStrategy) : String :=
  if dialect = DatabaseDialect.POSTGRESQL then pgSqlGetDistanceFunction ds
  else googleSqlGetDistanceFunction ds

/-- Configuration of a `SpannerVectorStore` instance: the arguments of
`__init__` that determine the column layout (the
`ignore_metadata_columns = None` branch of the constructor, which is the
branch every claim here is about). -/
structure StoreConfig where
  id_column : String
  content_column : String
  embedding_column : String
  metadata_columns_param : Option (List String)
  metadata_json_column : Option String

/-- Value of `self._columns_to_insert` computed by `__init__` when
`ignore_metadata_columns` is `None`: `[id, content, embedding]`, extended
with `metadata_columns`, then with `metadata_json_column` when that name
is not already present. -/
def storeColumnsToInsert (cfg : StoreConfig) : List String :=
  let base := [cfg.id_column, cfg.content_column, cfg.embedding_column] ++
    cfg.metadata_columns_param.getD []
  match cfg.metadata_json_column with
  | some j => if j ∈ base then base else base ++ [j]
  | none => base

/-- Value of `self._metadata_columns` computed by `__init__` when
`ignore_metadata_columns` is `None`: the configured metadata columns,
with `metadata_json_column` appended when it was not already among the
columns to insert. -/
def storeMetadataColumns (cfg : StoreConfig) : List String :=
  let meta := cfg.metadata_columns_param.getD []
  let cti := [cfg.id_column, cfg.content_column, cfg.embedding_column] ++ meta
  match cfg.metadata_json_column with
  | some j => if j ∈ cti then meta else meta ++ [j]
  | none => meta

/-- Lookup in the dict comprehension
`{value: index for index, value in enumerate(cols)}`: a later occurrence
of a duplicated name overwrites an earlier one, so lookup returns the
index of the LAST occurrence. `i` is the index of the head of the
remaining list. -/
def columnOrderMapAux (i : Nat) : List String → String → Option Nat
  | [], _ => none
  | c :: cs, x =>
    match columnOrderMapAux (i + 1) cs x with
    | some j => some j
    | none => if x = c then some i else none

/-- `column_order_map` of `similarity_search_with_score_by_vector`: the
index of each selected column, with the key `"distance"` set (last, so it
overwrites any column of that name) to `len(columns_to_insert)`. -/
def columnOrderMap (cols : List String) (x : String) : Option Nat :=
  if x = "distance" then some cols.length else columnOrderMapAux 0 cols x

/-- Indexing `row[pos]`. Out-of-range or missing-key access would raise in
Python; all uses in the claims are at valid positions, where the default
is never taken. -/
def rowGet (row : List Value) (pos : Option Nat) : Value :=
  match pos with
  | some i => row.getD i .vnull
  | none => .vnull

/-- Result document of the read direction (`langchain` `Document`):
`page_content` and `metadata` exactly as the source builds them. The
metadata is a `Value` because the catch-all branch returns the raw cell
value. -/
structure DocumentM where
  page_content : Value
  metadata : Value

/-- Read-direction conversion of one result row, from the body of the
result loop of `similarity_search_with_score_by_vector`:
`page_content = row[map[content]]`; metadata is the raw catch-all cell
when a JSON catch-all column is configured and its cell is truthy, else
the dict built from `self._metadata_columns` omitting `None` cells; the
second component is the cell at the `"distance"` position. -/
def fromRow (cfg : StoreConfig) (row : List Value) : DocumentM × Value :=
  let cols := storeColumnsToInsert cfg
  let m := columnOrderMap cols
  let page_content := rowGet row (m cfg.content_column)
  let elseDict : Value := Value.vjson
    ((storeMetadataColumns cfg).filterMap (fun key =>
      let v := rowGet row (m key)
      if v.isNull then none else some (key, v)))
  let metadata :=
    match cfg.metadata_json_column with
    | some j => if (rowGet row (m j)).truthy then rowGet row (m j) else elseDict
    | none => elseDict
  (⟨page_content, metadata⟩, rowGet row (m "distance"))

/-- Value of the local `parameter` tuple of
`similarity_search_with_score_by_vector`: `(placeholder, name)` =
`("@vector_embedding", "vector_embedding")`, replaced by `("$1", "p1")`
for POSTGRESQL. -/
def searchParameter (dialect : DatabaseDialect) : String × String :=
  if dialect = DatabaseDialect.POSTGRESQL then ("$1", "p1")
  else ("@vector_embedding", "vector_embedding")

/-- The `sql_query` string assembled by
`similarity_search_with_score_by_vector`, whitespace included
(`select_column_names` is `",".join(columns) + ","`). -/
def similaritySearchSql (dialect : DatabaseDialect) (ds : DistanceStrategy)
    (columns_to_insert : List String) (table_name embedding_column : String)
    (pre_filter : Option String) (k : Nat) : String :=
  let distance_function := dialectDistanceFunction dialect ds
  let parameter := searchParameter dialect
  let select_column_names := String.intercalate "," columns_to_insert ++ ","
  "\n            SELECT " ++ select_column_names ++ " " ++ distance_function ++
    "(" ++ embedding_column ++ ", " ++ parameter.1 ++ ") AS " ++ "distance" ++
    "\n            FROM " ++ table_name ++ " " ++
    "\n            WHERE " ++ (match pre_filter with | some f => f | none => "1 = 1") ++
    "\n            ORDER BY distance" ++
    "\n            LIMIT " ++ toString k ++ ";" ++
    "\n        "

/-- Spanner parameter type tags used by the source
(`param_types.Array(param_types.FLOAT64)`). -/
inductive ParamType where
  | arrayFloat64
deriving DecidableEq, Repr

/-- One call to `snapshot.execute_sql`: the SQL text plus the single
bound parameter (name, value, declared type). `V` is the type of the
query vector, kept abstract: the SQL text cannot mention it. -/
structure ExecuteSqlCall (V : Type) where
  sql : String
  paramName : String
  paramValue : V
  paramType : ParamType

/-- The parameterized read issued by
`similarity_search_with_score_by_vector` on a store: SQL built over
`self._columns_to_insert`, with the embedding bound under the dialect's
parameter name as a FLOAT64 array. -/
def storeSimilaritySearch {V : Type} (cfg : StoreConfig) (dialect : DatabaseDialect)
    (ds : DistanceStrategy) (table_name : String) (embedding : V)
    (k : Nat) (pre_filter : Option String) : ExecuteSqlCall V :=
  { sql := similaritySearchSql dialect ds (storeColumnsToInsert cfg)
      table_name cfg.embedding_column pre_filter k
    paramName := (searchParameter dialect).2
    paramValue := embedding
    paramType := .arrayFloat64 }

/-! Claim C1: shape of the generated similarity-search statement and the
typed parameter binding. -/

/-- C1: every similarity search with query vector `v`, limit `k` and
optional `pre_filter` issues the statement
`SELECT <configured columns>, <distanceFunction>(<embeddingColumn>, <placeholder>) AS distance
FROM <table> WHERE <filter> ORDER BY distance LIMIT k` (whitespace as in
the source), where the filter is `pre_filter` verbatim when supplied and
`1 = 1` otherwise, the placeholder is `@vector_embedding` for GOOGLE_SQL
and `$1` for POSTGRESQL, and the vector is bound as a typed
FLOAT64-array parameter under the dialect's parameter name; the SQL text
is a function of everything except `v`, so the vector is never
interpolated into it. -/
theorem claim_C1_search_statement_shape {V : Type} (v : V)
    (dialect : DatabaseDialect) (ds : DistanceStrategy) (cfg : StoreConfig)
    (table_name : String) (k : Nat) (pre_filter : Option String) :
    (storeSimilaritySearch cfg dialect ds table_name v k pre_filter).sql =
      "\n            SELECT " ++ String.intercalate "," (storeColumnsToInsert cfg) ++
        ", " ++ dialectDistanceFunction dialect ds ++ "(" ++ cfg.embedding_column ++
        ", " ++
        (if dialect = DatabaseDialect.POSTGRESQL then "$1" else "@vector_embedding") ++
        ") AS distance\n            FROM " ++ table_name ++
        " \n            WHERE " ++ pre_filter.getD "1 = 1" ++
        "\n            ORDER BY distance\n            LIMIT " ++ toString k ++
        ";\n        " ∧
    (storeSimilaritySearch cfg dialect ds table_name v k pre_filter).paramName =
      (if dialect = DatabaseDialect.POSTGRESQL then "p1" else "vector_embedding") ∧
    (storeSimilaritySearch cfg dialect ds table_name v k pre_filter).paramValue = v ∧
    (storeSimilaritySearch cfg dialect ds table_name v k pre_filter).paramType =
      ParamType.arrayFloat64 := by
  refine ⟨?_, ?_, rfl, rfl⟩
  · cases dialect <;> cases pre_filter <;>
      · apply String.ext
        simp [storeSimilaritySearch, similaritySearchSql, searchParameter,
          dialectDistanceFunction, String.data_append]
  · cases dialect <;> rfl

/-! Claim C2: read-direction conversion of a result row. Helper lemmas
about the column-order dict first. -/

theorem columnOrderMapAux_eq_none {c : String} :
    ∀ (cols : List String) (i : Nat), c ∉ cols → columnOrderMapAux i cols c = none := by
  intro cols
  induction cols with
  | nil => intro i _; rfl
  | cons a cs ih =>
    intro i hc
    have h1 : c ∉ cs := fun h => hc (List.mem_cons_of_mem _ h)
    have h2 : c ≠ a := fun h => hc (h ▸ List.mem_cons_self a cs)
    simp [columnOrderMapAux, ih _ h1, h2]

theorem columnOrderMapAux_eq_indexOf {c : String} :
    ∀ (cols : List String) (i : Nat), cols.Nodup → c ∈ cols →
      columnOrderMapAux i cols c = some (i + cols.indexOf c) := by
  intro cols
  induction cols with
  | nil => intro i _ h; cases h
  | cons a cs ih =>
    intro i hnd hc
    rcases List.mem_cons.mp hc with h | h
    · subst h
      have hnotin : c ∉ cs := (List.nodup_cons.mp hnd).1
      simp [columnOrderMapAux, columnOrderMapAux_eq_none cs (i + 1) hnotin,
        List.indexOf_cons_self]
    · have hne : c ≠ a := by
        rintro rfl
        exact (List.nodup_cons.mp hnd).1 h
      have := ih (i + 1) (List.nodup_cons.mp hnd).2 h
      simp [columnOrderMapAux, this, List.indexOf_cons_ne _ (Ne.symm hne)]
      omega

theorem columnOrderMap_of_mem {cols : List String} {c : String}
    (hnd : cols.Nodup) (hc : c ∈ cols) (hdist : "distance" ∉ cols) :
    columnOrderMap cols c = some (cols.indexOf c) := by
  have hne : c ≠ "distance" := fun h => hdist (h ▸ hc)
  simp [columnOrderMap, hne, columnOrderMapAux_eq_indexOf cols 0 hnd hc]

theorem columnOrderMap_distance (cols : List String) :
    columnOrderMap cols "distance" = some cols.length := by
  simp [columnOrderMap]

theorem content_mem_storeColumnsToInsert (cfg : StoreConfig) :
    cfg.content_column ∈ storeColumnsToInsert cfg := by
  cases hc : cfg.metadata_json_column with
  | none => simp [storeColumnsToInsert, hc]
  | some j =>
    simp only [storeColumnsToInsert, hc]
    split <;> simp

theorem json_mem_storeColumnsToInsert {cfg : StoreConfig} {j : String}
    (h : cfg.metadata_json_column = some j) : j ∈ storeColumnsToInsert cfg := by
  simp only [storeColumnsToInsert, h]
  split
  · assumption
  · simp

theorem storeMetadataColumns_subset (cfg : StoreConfig) :
    ∀ c ∈ storeMetadataColumns cfg, c ∈ storeColumnsToInsert cfg := by
  intro c hc
  cases hj : cfg.metadata_json_column with
  | none =>
    simp only [storeMetadataColumns, hj] at hc
    simp only [storeColumnsToInsert, hj]
    exact List.mem_append_right _ hc
  | some j =>
    simp only [storeMetadataColumns, hj] at hc
    simp only [storeColumnsToInsert, hj]
    by_cases hin : j ∈ [cfg.id_column, cfg.content_column, cfg.embedding_column] ++
      cfg.metadata_columns_param.getD []
    · rw [if_pos hin] at hc ⊢
      exact List.mem_append_right _ hc
    · rw [if_neg hin] at hc ⊢
      rcases List.mem_append.mp hc with h | h
      · exact List.mem_append_left _ (List.mem_append_right _ h)
      · exact List.mem_append_right _ h

/-- Store configuration of the C2 counterexample: one individually
configured metadata column `a` and the catch-all JSON column `meta`. -/
def c2cfg : StoreConfig :=
  ⟨"id", "content", "embedding", some ["a"], some "meta"⟩

/-- Result row of the C2 counterexample: an empty (hence falsy, yet
non-null) JSON object in the catch-all column, `"x"` in column `a`. The
trailing cell is the distance value. -/
def c2row : List Value :=
  [.vstr "r1", .vstr "hello", .varr [], .vstr "x", .vjson [], .vint 7]

/-- C2 counterexample: the claim says that whenever the catch-all cell is
non-null the returned metadata equals that cell. Here the catch-all cell
is the empty JSON object — non-null but falsy — and the code falls
through to the per-column mapping instead, which also retains the
catch-all column itself as an entry. -/
theorem claim_C2_counterexample :
    rowGet c2row (columnOrderMap (storeColumnsToInsert c2cfg) "meta") = Value.vjson [] ∧
    (Value.vjson []).isNull = false ∧
    (fromRow c2cfg c2row).1.metadata =
      Value.vjson [("a", Value.vstr "x"), ("meta", Value.vjson [])] ∧
    (fromRow c2cfg c2row).1.metadata ≠ Value.vjson [] := by
  refine ⟨rfl, rfl, rfl, ?_⟩
  simp [fromRow, c2cfg, c2row, storeColumnsToInsert, storeMetadataColumns,
    columnOrderMap, columnOrderMapAux, rowGet, Value.isNull, Value.truthy]

/-- C2 amended: content is the value at the content column's position and
the distance is the trailing position; the catch-all value is returned as
metadata exactly when it is truthy (non-null AND non-empty), and
otherwise the metadata is the mapping over `self._metadata_columns`
(a list that includes the catch-all column itself) omitting null cells. -/
theorem claim_C2_amended (cfg : StoreConfig) (row : List Value) (j : String)
    (hj : cfg.metadata_json_column = some j)
    (hnd : (storeColumnsToInsert cfg).Nodup)
    (hd : "distance" ∉ storeColumnsToInsert cfg) :
    ((fromRow cfg row).1.page_content =
        row.getD ((storeColumnsToInsert cfg).indexOf cfg.content_column) .vnull) ∧
    ((fromRow cfg row).2 = row.getD (storeColumnsToInsert cfg).length .vnull) ∧
    ((fromRow cfg row).1.metadata =
      if (row.getD ((storeColumnsToInsert cfg).indexOf j) .vnull).truthy then
        row.getD ((storeColumnsToInsert cfg).indexOf j) .vnull
      else Value.vjson ((storeMetadataColumns cfg).filterMap (fun c =>
        let v := row.getD ((storeColumnsToInsert cfg).indexOf c) .vnull
        if v.isNull then none else some (c, v)))) := by
  have hcontent := columnOrderMap_of_mem hnd (content_mem_storeColumnsToInsert cfg) hd
  have hjpos := columnOrderMap_of_mem hnd (json_mem_storeColumnsToInsert hj) hd
  have hmeta : ∀ c ∈ storeMetadataColumns cfg,
      columnOrderMap (storeColumnsToInsert cfg) c =
        some ((storeColumnsToInsert cfg).indexOf c) := fun c hc =>
    columnOrderMap_of_mem hnd (storeMetadataColumns_subset cfg c hc) hd
  have helse : (storeMetadataColumns cfg).filterMap (fun key =>
        let v := rowGet row (columnOrderMap (storeColumnsToInsert cfg) key)
        if v.isNull then none else some (key, v)) =
      (storeMetadataColumns cfg).filterMap (fun c =>
        let v := row.getD ((storeColumnsToInsert cfg).indexOf c) .vnull
        if v.isNull then none else some (c, v)) := by
    apply List.filterMap_congr
    intro c hc
    rw [hmeta c hc]
    rfl
  refine ⟨?_, ?_, ?_⟩
  · simp [fromRow, hcontent, rowGet]
  · simp [fromRow, columnOrderMap_distance, rowGet]
  · simp only [fromRow, hj, hjpos, helse]
    simp [rowGet]

/-- Witness for the amended C2 theorem at the concrete store and row of
the counterexample. -/
theorem claim_C2_amended_witness :
    (c2cfg.metadata_json_column = some "meta") ∧
    (storeColumnsToInsert c2cfg).Nodup ∧
    ("distance" ∉ storeColumnsToInsert c2cfg) ∧
    (((fromRow c2cfg c2row).1.page_content =
        c2row.getD ((storeColumnsToInsert c2cfg).indexOf c2cfg.content_column) .vnull) ∧
      ((fromRow c2cfg c2row).2 =
        c2row.getD (storeColumnsToInsert c2cfg).length .vnull) ∧
      ((fromRow c2cfg c2row).1.metadata =
        if (c2row.getD ((storeColumnsToInsert c2cfg).indexOf "meta") .vnull).truthy then
          c2row.getD ((storeColumnsToInsert c2cfg).indexOf "meta") .vnull
        else Value.vjson ((storeMetadataColumns c2cfg).filterMap (fun c =>
          let v := c2row.getD ((storeColumnsToInsert c2cfg).indexOf c) .vnull
          if v.isNull then none else some (c, v))))) :=
  ⟨rfl, by decide, by decide, claim_C2_amended c2cfg c2row "meta" rfl (by decide) (by decide)⟩

/-! Embedding of the ingestion path (`add_texts` and its batching). -/

/-- A Python metadata dict: an insertion-ordered association list. -/
abbrev Md := List (String × Value)

/-- Python `d.get(k)` on a metadata dict, with `None` (`vnull`) when the
key is absent. -/
def mdGet (md : Md) (k : String) : Value :=
  match md.find? (fun p => p.1 == k) with
  | some p => p.2
  | none => .vnull

/-- Python `d[k] = v` on an insertion-ordered dict: update in place when
the key exists, append at the end otherwise. -/
def odSet {α : Type} (m : List (String × α)) (k : String) (v : α) :
    List (String × α) :=
  if m.any (fun p => p.1 == k) then
    m.map (fun p => if p.1 == k then (k, v) else p)
  else m ++ [(k, v)]

/-- Python `d[k].append(v)` on a dict of lists: appends to the existing
entry. A missing key would raise `KeyError`; the source never reaches
that case because the dict is pre-populated with every metadata column. -/
def odAppend (d : List (String × List Value)) (k : String) (v : Value) :
    List (String × List Value) :=
  if d.any (fun p => p.1 == k) then
    d.map (fun p => if p.1 == k then (p.1, p.2 ++ [v]) else p)
  else d

/-- The in-place mutation `row_metadata[json_column] = JsonObject(row_metadata)`
performed by `add_texts` on each caller-supplied dict when a JSON
catch-all column is configured: the stored `JsonObject` is a copy of the
dict taken BEFORE the key is inserted. -/
def processRowMetadata (json_col : Option String) (md : Md) : Md :=
  match json_col with
  | some j => odSet md j (Value.vjson md)
  | none => md

/-- The dict comprehension `{key: [] for key in self._metadata_columns}`. -/
def initValuesDict (metaCols : List String) : List (String × List Value) :=
  metaCols.foldl (fun d c => odSet d c []) []

/-- The inner loop of `add_texts`: for one (already mutated) metadata
dict, append `row_metadata.get(column_name)` — `None` when absent — to
every metadata column's value list. -/
def appendRowValues (metaCols : List String) (d : List (String × List Value))
    (md : Md) : List (String × List Value) :=
  metaCols.foldl (fun d c => odAppend d c (mdGet md c)) d

/-- The `for row_metadata in metadatas` loop of `add_texts`: mutates each
dict via `processRowMetadata` and accumulates per-column value lists.
Returns (metadatas after mutation, values dict). -/
def metadataLoop (json_col : Option String) (metaCols : List String)
    (metadatas : List Md) : List Md × List (String × List Value) :=
  metadatas.foldl
    (fun acc md =>
      let md' := processRowMetadata json_col md
      (acc.1 ++ [md'], appendRowValues metaCols acc.2 md'))
    ([], initValuesDict metaCols)

/-- The complete `values_dict` of `add_texts` after the id, content and
embedding columns are set. `mds` is the metadatas list after the `None`
default (`[{} for _ in texts]`) is applied; `embedFn` is the embedding
collaborator, one `Value` per text. -/
def addTextsValuesDict (cfg : StoreConfig) (embedFn : List String → List Value)
    (texts : List String) (mds : List Md) (ids : Option (List String)) :
    List (String × List Value) :=
  let vdict := (metadataLoop cfg.metadata_json_column (storeMetadataColumns cfg) mds).2
  let d1 := match ids with
    | some l => odSet vdict cfg.id_column (l.map Value.vstr)
    | none => vdict
  let d2 := odSet d1 cfg.content_column (texts.map Value.vstr)
  odSet d2 cfg.embedding_column (embedFn texts)

/-- The `columns_to_insert = values_dict.keys()` of `add_texts`. -/
def addTextsColumns (cfg : StoreConfig) (embedFn : List String → List Value)
    (texts : List String) (mds : List Md) (ids : Option (List String)) :
    List String :=
  (addTextsValuesDict cfg embedFn texts mds ids).map Prod.fst

/-- The `rows_to_insert` list comprehension of `add_texts`: row `i` reads
position `i` of every column's value list, in dict key order. -/
def addTextsRows (cfg : StoreConfig) (embedFn : List String → List Value)
    (texts : List String) (mds : List Md) (ids : Option (List String)) :
    List (List Value) :=
  (List.range texts.length).map
    (fun i => (addTextsValuesDict cfg embedFn texts mds ids).map
      (fun p => p.2.getD i Value.vnull))

/-- The batching loop `for i in range(0, len(rows), batch_size)`:
consecutive slices of at most `B` elements. `B = 0` would raise
`ValueError` in Python; no chunks are produced there. -/
def chunks {α : Type} (B : Nat) (l : List α) : List (List α) :=
  match l with
  | [] => []
  | x :: xs =>
    if h : B = 0 then []
    else (x :: xs).take B :: chunks B ((x :: xs).drop B)
termination_by l.length
decreasing_by
  simp only [List.length_drop, List.length_cons]
  omega

/-- Observable calls `add_texts` makes on its collaborators, in order:
one batched embedding call, then one storage batch write per chunk. -/
inductive Effect where
  | embedCall (texts : List String)
  | batchWrite (table : String) (columns : List String) (values : List (List Value))

/-- Result of a modelled `add_texts` call: the collaborator calls issued,
the final state of the caller-supplied metadatas list (`none` when the
caller supplied none), and the returned ids or the assertion error. -/
structure AddTextsResult where
  effects : List Effect
  metadatas_out : Option (List Md)
  ret : Except String (List String)

/-- The `metadatas = [{} for _ in texts]` default applied when the caller
supplies no metadatas. -/
def defaultMds (texts : List String) (metadatas : Option (List Md)) : List Md :=
  match metadatas with
  | some l => l
  | none => texts.map (fun _ => ([] : Md))

/-- The failure condition of an `assert len(lst) == number_of_records`
guard: `true` exactly when the optional list is supplied with the wrong
length. -/
def lengthCheck {α : Type} (o : Option (List α)) (n : Nat) : Bool :=
  match o with
  | some l => l.length != n
  | none => false

/-- `add_texts` from the source: empty input short-circuits; the two
length asserts run before the embedding call; then metadatas default to
empty dicts, the values dict is assembled, and the rows are written in
chunks of `batch_size`. -/
def add_texts (cfg : StoreConfig) (table_name : String)
    (embedFn : List String → List Value) (texts : List String)
    (metadatas : Option (List Md)) (ids : Option (List String))
    (batch_size : Nat) : AddTextsResult :=
  let number_of_records := texts.length
  if number_of_records = 0 then ⟨[], metadatas, .ok []⟩
  else if lengthCheck ids number_of_records then
    ⟨[], metadatas, .error "assert len(ids) == number_of_records"⟩
  else if lengthCheck metadatas number_of_records then
    ⟨[], metadatas, .error "assert len(metadatas) == number_of_records"⟩
  else
    let mds := defaultMds texts metadatas
    let mds_after := (metadataLoop cfg.metadata_json_column
      (storeMetadataColumns cfg) mds).1
    let columns_to_insert := addTextsColumns cfg embedFn texts mds ids
    let rows_to_insert := addTextsRows cfg embedFn texts mds ids
    ⟨Effect.embedCall texts ::
        (chunks batch_size rows_to_insert).map
          (fun b => Effect.batchWrite table_name columns_to_insert b),
      (match metadatas with | some _ => some mds_after | none => none),
      .ok (ids.getD [])⟩

/-! Properties of the batching loop, then claim C3. -/

theorem chunks_flatten_aux {α : Type} (B : Nat) (hB : 0 < B) :
    ∀ (n : Nat) (l : List α), l.length = n → (chunks B l).flatten = l := by
  intro n
  induction n using Nat.strong_induction_on with
  | _ n ih =>
    intro l hn
    cases l with
    | nil => simp [chunks]
    | cons x xs =>
      rw [chunks, dif_neg (Nat.pos_iff_ne_zero.mp hB)]
      simp only [List.flatten_cons]
      rw [ih ((x :: xs).drop B).length ?_ _ rfl]
      · exact List.take_append_drop B (x :: xs)
      · subst hn
        simp only [List.length_drop, List.length_cons]
        omega

theorem chunks_flatten {α : Type} (B : Nat) (hB : 0 < B) (l : List α) :
    (chunks B l).flatten = l :=
  chunks_flatten_aux B hB l.length l rfl

theorem chunks_length_aux {α : Type} (B : Nat) (hB : 0 < B) :
    ∀ (n : Nat) (l : List α), l.length = n →
      (chunks B l).length = (l.length + B - 1) / B := by
  intro n
  induction n using Nat.strong_induction_on with
  | _ n ih =>
    intro l hn
    cases l with
    | nil =>
      simp [chunks, Nat.div_eq_of_lt (by omega : B - 1 < B)]
    | cons x xs =>
      rw [chunks, dif_neg (Nat.pos_iff_ne_zero.mp hB)]
      simp only [List.length_cons]
      rw [ih ((x :: xs).drop B).length ?_ _ rfl]
      · simp only [List.length_drop, List.length_cons]
        have hrhs : (xs.length + 1 + B - 1) / B = xs.length / B + 1 := by
          have he : xs.length + 1 + B - 1 = xs.length + B := by omega
          rw [he, Nat.add_div_right _ hB]
        rw [hrhs]
        rcases Nat.lt_or_ge (xs.length + 1) B with h | h
        · have h0 : xs.length + 1 - B = 0 := by omega
          rw [h0, Nat.div_eq_of_lt (by omega : 0 + B - 1 < B),
            Nat.div_eq_of_lt (by omega : xs.length < B)]
        · have h1 : xs.length + 1 - B + B - 1 = xs.length := by omega
          rw [h1]
      · subst hn
        simp only [List.length_drop, List.length_cons]
        omega

theorem chunks_length {α : Type} (B : Nat) (hB : 0 < B) (l : List α) :
    (chunks B l).length = (l.length + B - 1) / B :=
  chunks_length_aux B hB l.length l rfl

theorem chunks_mem_length_aux {α : Type} (B : Nat) (hB : 0 < B) :
    ∀ (n : Nat) (l : List α), l.length = n → ∀ c ∈ chunks B l, c.length ≤ B := by
  intro n
  induction n using Nat.strong_induction_on with
  | _ n ih =>
    intro l hn
    cases l with
    | nil => intro c hc; simp [chunks] at hc
    | cons x xs =>
      intro c hc
      rw [chunks, dif_neg (Nat.pos_iff_ne_zero.mp hB)] at hc
      rcases List.mem_cons.mp hc with h | h
      · subst h
        simp
      · exact ih ((x :: xs).drop B).length
          (by subst hn; simp only [List.length_drop, List.length_cons]; omega) _ rfl c h

theorem chunks_mem_length {α : Type} (B : Nat) (hB : 0 < B) (l : List α) :
    ∀ c ∈ chunks B l, c.length ≤ B :=
  chunks_mem_length_aux B hB l.length l rfl

theorem chunks_getElem?_aux {α : Type} (B : Nat) (hB : 0 < B) :
    ∀ (n : Nat) (l : List α), l.length = n → ∀ (i : Nat),
      (chunks B l)[i]? =
        if i * B < l.length then some ((l.drop (i * B)).take B) else none := by
  intro n
  induction n using Nat.strong_induction_on with
  | _ n ih =>
    intro l hn
    cases l with
    | nil => intro i; simp [chunks]
    | cons x xs =>
      intro i
      rw [chunks, dif_neg (Nat.pos_iff_ne_zero.mp hB)]
      cases i with
      | zero => simp
      | succ i =>
        simp only [List.getElem?_cons_succ]
        rw [ih ((x :: xs).drop B).length
          (by subst hn; simp only [List.length_drop, List.length_cons]; omega) _ rfl i]
        simp only [List.length_drop, List.length_cons, List.drop_drop]
        rcases Nat.lt_or_ge (xs.length + 1) B with h | h
        · have hge : (i + 1) * B ≥ B := by
            calc (i + 1) * B ≥ 1 * B := Nat.mul_le_mul_right _ (by omega)
            _ = B := by omega
          rw [if_neg (by omega), if_neg (by omega)]
        · have harith : B + i * B = (i + 1) * B := by ring
          by_cases hlt : i * B < xs.length + 1 - B
          · rw [if_pos hlt, if_pos (by rw [← harith]; omega), harith]
          · rw [if_neg hlt, if_neg (by rw [← harith]; omega)]

theorem chunks_getElem? {α : Type} (B : Nat) (hB : 0 < B) (l : List α) (i : Nat) :
    (chunks B l)[i]? =
      if i * B < l.length then some ((l.drop (i * B)).take B) else none :=
  chunks_getElem?_aux B hB l.length l rfl i

/-- A satisfied length precondition makes the corresponding assert's
boolean test `false`. -/
theorem lengthCheckFalse {α : Type} (o : Option (List α)) (n : Nat)
    (h : ∀ l, o = some l → l.length = n) : lengthCheck o n = false := by
  cases o with
  | none => rfl
  | some l => simp [lengthCheck, h l rfl]

/-- Projection of the batch writes out of an `add_texts` result, in
issue order. -/
def writesOf (r : AddTextsResult) : List (List (List Value)) :=
  r.effects.filterMap (fun e => match e with
    | .batchWrite _ _ b => some b
    | _ => none)

/-- On a non-short-circuiting, assert-passing call, the effects of
`add_texts` are the embedding call followed by one batch write per chunk
of the built row list. -/
theorem add_texts_effects (cfg : StoreConfig) (table_name : String)
    (embedFn : List String → List Value) (texts : List String)
    (metadatas : Option (List Md)) (ids : Option (List String)) (B : Nat)
    (h0 : ¬ texts.length = 0)
    (hids : ∀ l, ids = some l → l.length = texts.length)
    (hmds : ∀ l, metadatas = some l → l.length = texts.length) :
    (add_texts cfg table_name embedFn texts metadatas ids B).effects =
      Effect.embedCall texts ::
        (chunks B (addTextsRows cfg embedFn texts (defaultMds texts metadatas) ids)).map
          (fun b => Effect.batchWrite table_name
            (addTextsColumns cfg embedFn texts (defaultMds texts metadatas) ids) b) := by
  have hids' := lengthCheckFalse ids texts.length hids
  have hmds' := lengthCheckFalse metadatas texts.length hmds
  simp only [add_texts]
  rw [hids', hmds']
  simp [h0]

/-- On a non-short-circuiting, assert-passing call with caller-supplied
metadatas, `add_texts` leaves the metadatas list in the state produced by
the metadata loop. -/
theorem add_texts_metadatas_out (cfg : StoreConfig) (table_name : String)
    (embedFn : List String → List Value) (texts : List String)
    (mdsIn : List Md) (ids : Option (List String)) (B : Nat)
    (h0 : ¬ texts.length = 0)
    (hids : ∀ l, ids = some l → l.length = texts.length)
    (hmds : mdsIn.length = texts.length) :
    (add_texts cfg table_name embedFn texts (some mdsIn) ids B).metadatas_out =
      some (metadataLoop cfg.metadata_json_column (storeMetadataColumns cfg) mdsIn).1 := by
  have hids' := lengthCheckFalse ids texts.length hids
  have hmds' := lengthCheckFalse (some mdsIn) texts.length
    (fun l h => by cases h; exact hmds)
  simp only [add_texts]
  rw [hids', hmds']
  simp [h0, defaultMds]

/-- C3: an `add_texts` call with `N > 0` texts, batch size `B > 0` and
well-formed lengths issues its writes as `chunks B rows`: exactly
`ceil(N/B)` storage batch writes, each of at most `B` rows, the `i`-th
write being the `i`-th consecutive slice of the built row list, and the
concatenation of the writes in issue order being the full row list. -/
theorem claim_C3_batching (cfg : StoreConfig) (table_name : String)
    (embedFn : List String → List Value) (texts : List String)
    (metadatas : Option (List Md)) (ids : Option (List String)) (B : Nat)
    (htx : texts ≠ []) (hB : 0 < B)
    (hids : ∀ l, ids = some l → l.length = texts.length)
    (hmds : ∀ l, metadatas = some l → l.length = texts.length) :
    let r := add_texts cfg table_name embedFn texts metadatas ids B
    let rows := addTextsRows cfg embedFn texts (defaultMds texts metadatas) ids
    writesOf r = chunks B rows ∧
    rows.length = texts.length ∧
    (writesOf r).length = (texts.length + B - 1) / B ∧
    (∀ b ∈ writesOf r, b.length ≤ B) ∧
    (writesOf r).flatten = rows ∧
    (∀ i, (writesOf r)[i]? =
      if i * B < rows.length then some ((rows.drop (i * B)).take B) else none) := by
  intro r rows
  have h0 : ¬ texts.length = 0 := fun h => htx (List.length_eq_zero.mp h)
  have hw : writesOf r = chunks B rows := by
    show writesOf (add_texts cfg table_name embedFn texts metadatas ids B) = _
    rw [writesOf, add_texts_effects cfg table_name embedFn texts metadatas ids B h0 hids hmds]
    simp [List.filterMap_map, Function.comp_def]
  have hlen : rows.length = texts.length := by
    simp [rows, addTextsRows]
  refine ⟨hw, hlen, ?_, ?_, ?_, ?_⟩
  · rw [hw, chunks_length B hB rows, hlen]
  · rw [hw]; exact chunks_mem_length B hB rows
  · rw [hw]; exact chunks_flatten B hB rows
  · intro i; rw [hw]; exact chunks_getElem? B hB rows i

/-- Witness for C3 at a concrete call: three texts, batch size two. -/
theorem claim_C3_batching_witness :
    (["ta", "tb", "tc"] : List String) ≠ [] ∧ 0 < 2 ∧
    (let r := add_texts ⟨"id", "content", "embedding", none, none⟩ "tbl"
        (fun ts => ts.map (fun _ => Value.varr [])) ["ta", "tb", "tc"] none none 2
      let rows := addTextsRows ⟨"id", "content", "embedding", none, none⟩
        (fun ts => ts.map (fun _ => Value.varr [])) ["ta", "tb", "tc"]
        (defaultMds ["ta", "tb", "tc"] none) none
      writesOf r = chunks 2 rows ∧
      rows.length = (["ta", "tb", "tc"] : List String).length ∧
      (writesOf r).length = ((["ta", "tb", "tc"] : List String).length + 2 - 1) / 2 ∧
      (∀ b ∈ writesOf r, b.length ≤ 2) ∧
      (writesOf r).flatten = rows ∧
      (∀ i, (writesOf r)[i]? =
        if i * 2 < rows.length then some ((rows.drop (i * 2)).take 2) else none)) :=
  ⟨by simp, by omega,
    claim_C3_batching ⟨"id", "content", "embedding", none, none⟩ "tbl"
      (fun ts => ts.map (fun _ => Value.varr [])) ["ta", "tb", "tc"] none none 2
      (by simp) (by omega) (fun l h => by cases h) (fun l h => by cases h)⟩

/-! Observation functions and lemmas for the ordered-dict model, used to
characterize the values dict `add_texts` builds (claims C5 and C10). -/

/-- Key list of an ordered dict, in insertion order. -/
def keysOf {α : Type} (m : List (String × α)) : List String := m.map Prod.fst

/-- Lookup in an ordered dict (first entry with the key). -/
def odGet {α : Type} (m : List (String × α)) (k : String) : Option α :=
  (m.find? (fun p => p.1 == k)).map Prod.snd

theorem mdGet_eq_odGet (md : Md) (k : String) :
    mdGet md k = (odGet md k).getD .vnull := by
  simp only [mdGet, odGet]
  cases md.find? (fun p => p.1 == k) <;> rfl

theorem any_key_eq_true_iff {α : Type} (m : List (String × α)) (k : String) :
    m.any (fun p => p.1 == k) = true ↔ k ∈ keysOf m := by
  rw [List.any_eq_true]
  constructor
  · rintro ⟨p, hp, hpe⟩
    exact (beq_iff_eq.mp hpe) ▸ List.mem_map_of_mem Prod.fst hp
  · intro hk
    rcases List.mem_map.mp hk with ⟨p, hp, hpe⟩
    exact ⟨p, hp, beq_iff_eq.mpr hpe⟩

theorem odSet_of_not_mem {α : Type} {m : List (String × α)} {k : String} (v : α)
    (h : k ∉ keysOf m) : odSet m k v = m ++ [(k, v)] := by
  have : m.any (fun p => p.1 == k) = false := by
    rw [← Bool.not_eq_true, any_key_eq_true_iff]
    exact h
  simp [odSet, this]

theorem find?_eq_none_of_not_mem {α : Type} {m : List (String × α)} {k : String}
    (h : k ∉ keysOf m) : m.find? (fun p => p.1 == k) = none := by
  rw [List.find?_eq_none]
  intro p hp
  simp only [beq_iff_eq]
  intro he
  exact h (he ▸ List.mem_map_of_mem Prod.fst hp)

theorem odGet_of_not_mem {α : Type} {m : List (String × α)} {k : String}
    (h : k ∉ keysOf m) : odGet m k = none := by
  simp [odGet, find?_eq_none_of_not_mem h]

theorem odGet_odSet_self {α : Type} (m : List (String × α)) (k : String) (v : α) :
    odGet (odSet m k v) k = some v := by
  rw [odSet]
  split
  case isTrue hany =>
    rw [odGet, List.find?_map]
    have hcomp : ((fun p => p.1 == k) ∘ fun p : String × α =>
        if p.1 == k then (k, v) else p) = fun p => p.1 == k := by
      funext p
      by_cases hpk : p.1 = k
      · simp [Function.comp, hpk]
      · simp [Function.comp, hpk]
    rw [hcomp]
    obtain ⟨a, ha⟩ := Option.isSome_iff_exists.mp (List.find?_isSome.mpr (by
      rcases List.any_eq_true.mp hany with ⟨p, hp, hpe⟩
      exact ⟨p, hp, hpe⟩))
    have hak : a.1 = k := by simpa using List.find?_some ha
    rw [ha]
    simp [hak]
  case isFalse hany =>
    rw [odGet, List.find?_append]
    have hnone : m.find? (fun p => p.1 == k) = none := by
      rw [List.find?_eq_none]
      intro p hp hpk
      exact hany (List.any_eq_true.mpr ⟨p, hp, hpk⟩)
    rw [hnone]
    simp

theorem odGet_odSet_other {α : Type} (m : List (String × α)) (k k' : String) (v : α)
    (hne : k' ≠ k) : odGet (odSet m k v) k' = odGet m k' := by
  rw [odSet]
  split
  · rw [odGet, List.find?_map]
    have hcomp : ((fun p => p.1 == k') ∘ fun p : String × α =>
        if p.1 == k then (k, v) else p) = fun p => p.1 == k' := by
      funext p
      by_cases hpk : p.1 = k
      · simp [Function.comp, hpk, Ne.symm hne]
      · simp [Function.comp, hpk]
    rw [hcomp, odGet]
    cases hf : m.find? (fun p => p.1 == k') with
    | none => rfl
    | some a =>
      have ha : a.1 = k' := by simpa using List.find?_some hf
      have hak : ¬ a.1 = k := by rw [ha]; exact hne
      simp [hak]
  · rw [odGet, odGet, List.find?_append]
    have h1 : ([(k, v)].find? (fun p => p.1 == k')) = none := by
      simp [Ne.symm hne]
    rw [h1]
    cases m.find? (fun p => p.1 == k') <;> rfl

theorem keysOf_odSet {α : Type} (m : List (String × α)) (k : String) (v : α) :
    keysOf (odSet m k v) = if k ∈ keysOf m then keysOf m else keysOf m ++ [k] := by
  by_cases hk : k ∈ keysOf m
  · rw [if_pos hk, odSet, if_pos ((any_key_eq_true_iff m k).mpr hk)]
    simp only [keysOf, List.map_map]
    apply List.map_congr_left
    intro p hp
    by_cases hpk : p.1 = k
    · simp [Function.comp, hpk]
    · simp [Function.comp, hpk]
  · rw [if_neg hk, odSet_of_not_mem v hk]
    simp [keysOf]

theorem keysOf_odAppend (d : List (String × List Value)) (k : String) (v : Value) :
    keysOf (odAppend d k v) = keysOf d := by
  rw [odAppend]
  split
  · simp only [keysOf, List.map_map]
    apply List.map_congr_left
    intro p hp
    by_cases hpk : p.1 = k
    · simp [Function.comp, hpk]
    · simp [Function.comp, hpk]
  · rfl

theorem odGet_odAppend_self (d : List (String × List Value)) (k : String) (v : Value) :
    odGet (odAppend d k v) k = (odGet d k).map (fun l => l ++ [v]) := by
  rw [odAppend]
  split
  case isTrue hany =>
    rw [odGet, List.find?_map]
    have hcomp : ((fun p => p.1 == k) ∘ fun p : String × List Value =>
        if p.1 == k then (p.1, p.2 ++ [v]) else p) = fun p => p.1 == k := by
      funext p
      by_cases hpk : p.1 = k
      · simp [Function.comp, hpk]
      · simp [Function.comp, hpk]
    rw [hcomp, odGet]
    cases hf : d.find? (fun p => p.1 == k) with
    | none => rfl
    | some a =>
      have ha : a.1 = k := by simpa using List.find?_some hf
      simp [ha]
  case isFalse hany =>
    rw [odGet]
    have hnone : d.find? (fun p => p.1 == k) = none := by
      rw [List.find?_eq_none]
      intro p hp hpk
      exact hany (List.any_eq_true.mpr ⟨p, hp, hpk⟩)
    rw [hnone]
    rfl

theorem odGet_odAppend_other (d : List (String × List Value)) (k k' : String)
    (v : Value) (hne : k' ≠ k) : odGet (odAppend d k v) k' = odGet d k' := by
  rw [odAppend]
  split
  · rw [odGet, List.find?_map]
    have hcomp : ((fun p => p.1 == k') ∘ fun p : String × List Value =>
        if p.1 == k then (p.1, p.2 ++ [v]) else p) = fun p => p.1 == k' := by
      funext p
      by_cases hpk : p.1 = k
      · simp [Function.comp, hpk, Ne.symm hne]
      · simp [Function.comp, hpk]
    rw [hcomp, odGet]
    cases hf : d.find? (fun p => p.1 == k') with
    | none => rfl
    | some a =>
      have ha : a.1 = k' := by simpa using List.find?_some hf
      have hak : ¬ a.1 = k := by rw [ha]; exact hne
      simp [hak]
  · rfl

/-! Lemmas characterizing the folds that build the values dict. -/

theorem keysOf_foldl_odSet {α : Type} (f : String → α) :
    ∀ (l : List String) (d : List (String × α)), l.Nodup →
      (∀ c ∈ l, c ∉ keysOf d) →
      keysOf (l.foldl (fun d c => odSet d c (f c)) d) = keysOf d ++ l := by
  intro l
  induction l with
  | nil => intro d _ _; simp
  | cons a cs ih =>
    intro d hnd hfresh
    have ha : a ∉ keysOf d := hfresh a (List.mem_cons_self a cs)
    have hkeys : keysOf (odSet d a (f a)) = keysOf d ++ [a] := by
      rw [keysOf_odSet, if_neg ha]
    simp only [List.foldl_cons]
    rw [ih (odSet d a (f a)) (List.nodup_cons.mp hnd).2 ?_, hkeys]
    · simp
    · intro c hc
      rw [hkeys]
      intro hmem
      rcases List.mem_append.mp hmem with h | h
      · exact hfresh c (List.mem_cons_of_mem _ hc) h
      · exact (List.nodup_cons.mp hnd).1 ((List.mem_singleton.mp h) ▸ hc)

theorem odGet_foldl_odSet_not_mem {α : Type} (f : String → α) :
    ∀ (l : List String) (d : List (String × α)) (c : String), c ∉ l →
      odGet (l.foldl (fun d c' => odSet d c' (f c')) d) c = odGet d c := by
  intro l
  induction l with
  | nil => intro d c _; rfl
  | cons a cs ih =>
    intro d c hc
    have hne : c ≠ a := fun h => hc (h ▸ List.mem_cons_self a cs)
    simp only [List.foldl_cons]
    rw [ih _ c (fun h => hc (List.mem_cons_of_mem _ h)),
      odGet_odSet_other d a c (f a) hne]

theorem odGet_foldl_odSet_mem {α : Type} (f : String → α) :
    ∀ (l : List String) (d : List (String × α)) (c : String), l.Nodup → c ∈ l →
      odGet (l.foldl (fun d c' => odSet d c' (f c')) d) c = some (f c) := by
  intro l
  induction l with
  | nil => intro d c _ h; cases h
  | cons a cs ih =>
    intro d c hnd hc
    simp only [List.foldl_cons]
    rcases List.mem_cons.mp hc with h | h
    · subst h
      rw [odGet_foldl_odSet_not_mem f cs _ c (List.nodup_cons.mp hnd).1,
        odGet_odSet_self]
    · exact ih _ c (List.nodup_cons.mp hnd).2 h

theorem odGet_initValuesDict_mem (metaCols : List String) (c : String)
    (hnd : metaCols.Nodup) (hc : c ∈ metaCols) :
    odGet (initValuesDict metaCols) c = some [] :=
  odGet_foldl_odSet_mem (fun _ => []) metaCols [] c hnd hc

theorem keysOf_initValuesDict (metaCols : List String) (hnd : metaCols.Nodup) :
    keysOf (initValuesDict metaCols) = metaCols := by
  have := keysOf_foldl_odSet (fun _ => ([] : List Value)) metaCols [] hnd
    (by intro c _ h; cases h)
  simpa [initValuesDict, keysOf] using this

theorem odGet_appendRowValues_not_mem (md : Md) :
    ∀ (l : List String) (d : List (String × List Value)) (c : String), c ∉ l →
      odGet (appendRowValues l d md) c = odGet d c := by
  intro l
  induction l with
  | nil => intro d c _; rfl
  | cons a cs ih =>
    intro d c hc
    have hne : c ≠ a := fun h => hc (h ▸ List.mem_cons_self a cs)
    simp only [appendRowValues, List.foldl_cons]
    rw [show (cs.foldl (fun d c' => odAppend d c' (mdGet md c'))
        (odAppend d a (mdGet md a))) =
      appendRowValues cs (odAppend d a (mdGet md a)) md from rfl]
    rw [ih _ c (fun h => hc (List.mem_cons_of_mem _ h)),
      odGet_odAppend_other d a c (mdGet md a) hne]

theorem odGet_appendRowValues_mem (md : Md) :
    ∀ (l : List String) (d : List (String × List Value)) (c : String),
      l.Nodup → c ∈ l →
      odGet (appendRowValues l d md) c = (odGet d c).map (fun vs => vs ++ [mdGet md c]) := by
  intro l
  induction l with
  | nil => intro d c _ h; cases h
  | cons a cs ih =>
    intro d c hnd hc
    simp only [appendRowValues, List.foldl_cons]
    rw [show (cs.foldl (fun d c' => odAppend d c' (mdGet md c'))
        (odAppend d a (mdGet md a))) =
      appendRowValues cs (odAppend d a (mdGet md a)) md from rfl]
    rcases List.mem_cons.mp hc with h | h
    · subst h
      rw [odGet_appendRowValues_not_mem md cs _ c (List.nodup_cons.mp hnd).1,
        odGet_odAppend_self]
    · have hne : c ≠ a := fun he =>
        (List.nodup_cons.mp hnd).1 (he ▸ h)
      rw [ih _ c (List.nodup_cons.mp hnd).2 h,
        odGet_odAppend_other d a c (mdGet md a) hne]

theorem keysOf_appendRowValues (md : Md) :
    ∀ (l : List String) (d : List (String × List Value)),
      keysOf (appendRowValues l d md) = keysOf d := by
  intro l
  induction l with
  | nil => intro d; rfl
  | cons a cs ih =>
    intro d
    simp only [appendRowValues, List.foldl_cons]
    rw [show (cs.foldl (fun d c' => odAppend d c' (mdGet md c'))
        (odAppend d a (mdGet md a))) =
      appendRowValues cs (odAppend d a (mdGet md a)) md from rfl]
    rw [ih, keysOf_odAppend]

theorem metadataLoop_foldl_fst (json_col : Option String) (metaCols : List String) :
    ∀ (mds : List Md) (accL : List Md) (accD : List (String × List Value)),
      (mds.foldl (fun acc md =>
          let md' := processRowMetadata json_col md
          (acc.1 ++ [md'], appendRowValues metaCols acc.2 md')) (accL, accD)).1 =
        accL ++ mds.map (processRowMetadata json_col) := by
  intro mds
  induction mds with
  | nil => intro accL accD; simp
  | cons md rest ih =>
    intro accL accD
    simp only [List.foldl_cons, List.map_cons]
    rw [ih]
    simp

theorem metadataLoop_fst (json_col : Option String) (metaCols : List String)
    (mds : List Md) :
    (metadataLoop json_col metaCols mds).1 = mds.map (processRowMetadata json_col) := by
  rw [metadataLoop, metadataLoop_foldl_fst]
  simp

theorem metadataLoop_foldl_snd_get (json_col : Option String) (metaCols : List String)
    (hnd : metaCols.Nodup) (c : String) (hc : c ∈ metaCols) :
    ∀ (mds : List Md) (accL : List Md) (accD : List (String × List Value))
      (vs : List Value), odGet accD c = some vs →
      odGet (mds.foldl (fun acc md =>
          let md' := processRowMetadata json_col md
          (acc.1 ++ [md'], appendRowValues metaCols acc.2 md')) (accL, accD)).2 c =
        some (vs ++ mds.map (fun md => mdGet (processRowMetadata json_col md) c)) := by
  intro mds
  induction mds with
  | nil => intro accL accD vs hvs; simpa using hvs
  | cons md rest ih =>
    intro accL accD vs hvs
    simp only [List.foldl_cons]
    rw [ih _ _ (vs ++ [mdGet (processRowMetadata json_col md) c]) ?_]
    · simp
    · rw [odGet_appendRowValues_mem _ metaCols _ c hnd hc, hvs]
      rfl

theorem odGet_metadataLoop_snd (json_col : Option String) (metaCols : List String)
    (mds : List Md) (hnd : metaCols.Nodup) (c : String) (hc : c ∈ metaCols) :
    odGet (metadataLoop json_col metaCols mds).2 c =
      some (mds.map (fun md => mdGet (processRowMetadata json_col md) c)) := by
  rw [metadataLoop,
    metadataLoop_foldl_snd_get json_col metaCols hnd c hc mds [] _ []
      (odGet_initValuesDict_mem metaCols c hnd hc)]
  simp

theorem keysOf_metadataLoop_snd (json_col : Option String) (metaCols : List String)
    (mds : List Md) (hnd : metaCols.Nodup) :
    keysOf (metadataLoop json_col metaCols mds).2 = metaCols := by
  rw [metadataLoop]
  have : ∀ (ms : List Md) (accL : List Md) (accD : List (String × List Value)),
      keysOf (ms.foldl (fun acc md =>
          let md' := processRowMetadata json_col md
          (acc.1 ++ [md'], appendRowValues metaCols acc.2 md')) (accL, accD)).2 =
        keysOf accD := by
    intro ms
    induction ms with
    | nil => intro accL accD; rfl
    | cons md rest ih =>
      intro accL accD
      simp only [List.foldl_cons]
      rw [ih, keysOf_appendRowValues]
  rw [this, keysOf_initValuesDict metaCols hnd]

/-! Claim C5: column ordering on the write path versus the read path. -/

/-- The construction-time select list always factors as the three base
columns followed by the metadata columns (catch-all included when it was
appended). -/
theorem storeColumnsToInsert_eq (cfg : StoreConfig) :
    storeColumnsToInsert cfg =
      [cfg.id_column, cfg.content_column, cfg.embedding_column] ++
        storeMetadataColumns cfg := by
  cases hj : cfg.metadata_json_column with
  | none => simp [storeColumnsToInsert, storeMetadataColumns, hj]
  | some j =>
    simp only [storeColumnsToInsert, storeMetadataColumns, hj]
    split
    · rfl
    · simp

/-- The insert column list produced by `add_texts` (`values_dict.keys()`):
metadata columns first in configured order, then the id column when ids
are supplied, then content, then embedding. -/
theorem addTextsColumns_eq (cfg : StoreConfig) (embedFn : List String → List Value)
    (texts : List String) (mds : List Md) (ids : Option (List String))
    (hnd : (storeMetadataColumns cfg).Nodup)
    (hid : cfg.id_column ∉ storeMetadataColumns cfg)
    (hcont : cfg.content_column ∉ storeMetadataColumns cfg)
    (hemb : cfg.embedding_column ∉ storeMetadataColumns cfg)
    (hci : cfg.content_column ≠ cfg.id_column)
    (hei : cfg.embedding_column ≠ cfg.id_column)
    (hec : cfg.embedding_column ≠ cfg.content_column) :
    addTextsColumns cfg embedFn texts mds ids =
      storeMetadataColumns cfg ++
        (if ids.isSome then [cfg.id_column] else []) ++
        [cfg.content_column, cfg.embedding_column] := by
  have h0 : keysOf (metadataLoop cfg.metadata_json_column
      (storeMetadataColumns cfg) mds).2 = storeMetadataColumns cfg :=
    keysOf_metadataLoop_snd _ _ _ hnd
  show keysOf (addTextsValuesDict cfg embedFn texts mds ids) = _
  cases ids with
  | none =>
    simp only [addTextsValuesDict]
    have h1 : keysOf (odSet (metadataLoop cfg.metadata_json_column
        (storeMetadataColumns cfg) mds).2 cfg.content_column
          (texts.map Value.vstr)) = storeMetadataColumns cfg ++ [cfg.content_column] := by
      rw [keysOf_odSet, h0, if_neg hcont]
    rw [keysOf_odSet, h1, if_neg (by simp [hemb, hec])]
    simp
  | some idl =>
    simp only [addTextsValuesDict]
    have h1 : keysOf (odSet (metadataLoop cfg.metadata_json_column
        (storeMetadataColumns cfg) mds).2 cfg.id_column (idl.map Value.vstr)) =
        storeMetadataColumns cfg ++ [cfg.id_column] := by
      rw [keysOf_odSet, h0, if_neg hid]
    have h2 : keysOf (odSet (odSet (metadataLoop cfg.metadata_json_column
        (storeMetadataColumns cfg) mds).2 cfg.id_column (idl.map Value.vstr))
          cfg.content_column (texts.map Value.vstr)) =
        (storeMetadataColumns cfg ++ [cfg.id_column]) ++ [cfg.content_column] := by
      rw [keysOf_odSet, h1, if_neg (by simp [hcont, hci])]
    rw [keysOf_odSet, h2, if_neg (by simp [hemb, hei, hec])]
    simp

/-- The embedding column's value list in the values dict is the batched
embedding result. -/
theorem odGet_addTextsValuesDict_embedding (cfg : StoreConfig)
    (embedFn : List String → List Value) (texts : List String) (mds : List Md)
    (ids : Option (List String)) :
    odGet (addTextsValuesDict cfg embedFn texts mds ids) cfg.embedding_column =
      some (embedFn texts) := by
  simp only [addTextsValuesDict]
  exact odGet_odSet_self _ _ _

/-- The content column's value list in the values dict is the texts. -/
theorem odGet_addTextsValuesDict_content (cfg : StoreConfig)
    (embedFn : List String → List Value) (texts : List String) (mds : List Md)
    (ids : Option (List String))
    (hce : cfg.content_column ≠ cfg.embedding_column) :
    odGet (addTextsValuesDict cfg embedFn texts mds ids) cfg.content_column =
      some (texts.map Value.vstr) := by
  simp only [addTextsValuesDict]
  rw [odGet_odSet_other _ _ _ _ hce]
  exact odGet_odSet_self _ _ _

/-- The id column's value list in the values dict is the supplied ids. -/
theorem odGet_addTextsValuesDict_id (cfg : StoreConfig)
    (embedFn : List String → List Value) (texts : List String) (mds : List Md)
    (idl : List String)
    (hic : cfg.id_column ≠ cfg.content_column)
    (hie : cfg.id_column ≠ cfg.embedding_column) :
    odGet (addTextsValuesDict cfg embedFn texts mds (some idl)) cfg.id_column =
      some (idl.map Value.vstr) := by
  simp only [addTextsValuesDict]
  rw [odGet_odSet_other _ _ _ _ hie, odGet_odSet_other _ _ _ _ hic]
  exact odGet_odSet_self _ _ _

/-- A metadata column's value list in the values dict is the per-row
`row_metadata.get(column)` sequence, read after the catch-all mutation. -/
theorem odGet_addTextsValuesDict_meta (cfg : StoreConfig)
    (embedFn : List String → List Value) (texts : List String) (mds : List Md)
    (ids : Option (List String)) (c : String)
    (hnd : (storeMetadataColumns cfg).Nodup) (hc : c ∈ storeMetadataColumns cfg)
    (hcid : c ≠ cfg.id_column) (hcc : c ≠ cfg.content_column)
    (hce : c ≠ cfg.embedding_column) :
    odGet (addTextsValuesDict cfg embedFn texts mds ids) c =
      some (mds.map (fun md =>
        mdGet (processRowMetadata cfg.metadata_json_column md) c)) := by
  simp only [addTextsValuesDict]
  rw [odGet_odSet_other _ _ _ _ hce, odGet_odSet_other _ _ _ _ hcc]
  cases ids with
  | none => exact odGet_metadataLoop_snd _ _ _ hnd c hc
  | some idl =>
    rw [odGet_odSet_other _ _ _ _ hcid]
    exact odGet_metadataLoop_snd _ _ _ hnd c hc

/-- C5 counterexample: a store with one metadata column `a`. The
construction-time list is `[id, content, embedding, a]`, but the insert
issued by `add_texts` uses column order `[a, id, content, embedding]`
(with its value row in that same order) — not the construction-time
order the claim asserts. -/
theorem chunks_singleton {α : Type} (B : Nat) (hB : B ≠ 0) (x : α) :
    chunks B [x] = [[x]] := by
  have h1 : ([x] : List α).drop B = [] := List.drop_eq_nil_of_le (by simp; omega)
  have h2 : ([x] : List α).take B = [x] := List.take_of_length_le (by simp; omega)
  rw [chunks, dif_neg hB, h1, h2, chunks]

theorem claim_C5_counterexample :
    (add_texts ⟨"id", "content", "embedding", some ["a"], none⟩ "tbl"
        (fun ts => ts.map (fun _ => Value.varr [])) ["t"] none (some ["x"]) 5000).effects =
      [Effect.embedCall ["t"],
        Effect.batchWrite "tbl" ["a", "id", "content", "embedding"]
          [[Value.vnull, Value.vstr "x", Value.vstr "t", Value.varr []]]] ∧
    storeColumnsToInsert ⟨"id", "content", "embedding", some ["a"], none⟩ =
      ["id", "content", "embedding", "a"] ∧
    (["a", "id", "content", "embedding"] : List String) ≠
      ["id", "content", "embedding", "a"] := by
  refine ⟨?_, rfl, by decide⟩
  rw [add_texts_effects _ _ _ _ _ _ _ (by simp)
    (fun l h => by cases h; rfl) (fun l h => by cases h)]
  have hrows : addTextsRows ⟨"id", "content", "embedding", some ["a"], none⟩
      (fun ts => ts.map (fun _ => Value.varr [])) ["t"] (defaultMds ["t"] none)
      (some ["x"]) = [[Value.vnull, Value.vstr "x", Value.vstr "t", Value.varr []]] := rfl
  rw [hrows, chunks_singleton 5000 (by omega)]
  rfl

/-- C5 amended: the column ordering is NOT shared between the two paths.
The read path selects the construction-time list (base columns first,
then metadata columns) with the distance alias mapped to the position
after the last column; the write path inserts with the metadata columns
first, then id (when supplied), content and embedding, the row value
lists strictly matching that insert order; and the two orders differ
whenever a metadata column is configured. -/
theorem claim_C5_amended (cfg : StoreConfig) (embedFn : List String → List Value)
    (texts : List String) (mds : List Md) (idl : List String)
    (hnd : (storeMetadataColumns cfg).Nodup)
    (hid : cfg.id_column ∉ storeMetadataColumns cfg)
    (hcont : cfg.content_column ∉ storeMetadataColumns cfg)
    (hemb : cfg.embedding_column ∉ storeMetadataColumns cfg)
    (hci : cfg.content_column ≠ cfg.id_column)
    (hei : cfg.embedding_column ≠ cfg.id_column)
    (hec : cfg.embedding_column ≠ cfg.content_column)
    (hmne : storeMetadataColumns cfg ≠ []) :
    storeColumnsToInsert cfg =
      [cfg.id_column, cfg.content_column, cfg.embedding_column] ++
        storeMetadataColumns cfg ∧
    columnOrderMap (storeColumnsToInsert cfg) "distance" =
      some (storeColumnsToInsert cfg).length ∧
    addTextsColumns cfg embedFn texts mds (some idl) =
      storeMetadataColumns cfg ++
        [cfg.id_column, cfg.content_column, cfg.embedding_column] ∧
    addTextsColumns cfg embedFn texts mds (some idl) ≠ storeColumnsToInsert cfg ∧
    (∀ i, (addTextsRows cfg embedFn texts mds (some idl))[i]? =
      if i < texts.length then
        some ((addTextsValuesDict cfg embedFn texts mds (some idl)).map
          (fun p => p.2.getD i Value.vnull))
      else none) := by
  have hcols := addTextsColumns_eq cfg embedFn texts mds (some idl)
    hnd hid hcont hemb hci hei hec
  simp only [Option.isSome_some, if_true] at hcols
  have hcols' : addTextsColumns cfg embedFn texts mds (some idl) =
      storeMetadataColumns cfg ++
        [cfg.id_column, cfg.content_column, cfg.embedding_column] := by
    rw [hcols]; simp
  refine ⟨storeColumnsToInsert_eq cfg, columnOrderMap_distance _, hcols', ?_, ?_⟩
  · rw [hcols', storeColumnsToInsert_eq cfg]
    obtain ⟨m0, rest, hm⟩ := List.exists_cons_of_ne_nil hmne
    intro heq
    have hh := congrArg List.head? heq
    rw [hm] at hh
    simp at hh
    exact hid (hh ▸ (hm ▸ List.mem_cons_self m0 rest))
  · intro i
    simp only [addTextsRows, List.getElem?_map]
    by_cases hi : i < texts.length
    · rw [if_pos hi]
      have hr : (List.range texts.length)[i]? = some i := by
        simp [hi]
      rw [hr]
      rfl
    · rw [if_neg hi]
      have hr : (List.range texts.length)[i]? = none := by
        rw [List.getElem?_eq_none]
        simpa using Nat.le_of_not_lt hi
      rw [hr]
      rfl

/-- Witness for the amended C5 theorem at the counterexample's store. -/
theorem claim_C5_amended_witness :
    (storeMetadataColumns ⟨"id", "content", "embedding", some ["a"], none⟩).Nodup ∧
    "id" ∉ storeMetadataColumns ⟨"id", "content", "embedding", some ["a"], none⟩ ∧
    storeMetadataColumns ⟨"id", "content", "embedding", some ["a"], none⟩ ≠ [] ∧
    (storeColumnsToInsert ⟨"id", "content", "embedding", some ["a"], none⟩ =
      ["id", "content", "embedding"] ++
        storeMetadataColumns ⟨"id", "content", "embedding", some ["a"], none⟩ ∧
    columnOrderMap (storeColumnsToInsert ⟨"id", "content", "embedding", some ["a"], none⟩)
        "distance" =
      some (storeColumnsToInsert ⟨"id", "content", "embedding", some ["a"], none⟩).length ∧
    addTextsColumns ⟨"id", "content", "embedding", some ["a"], none⟩
        (fun ts => ts.map (fun _ => Value.varr [])) ["t"] [[]] (some ["x"]) =
      storeMetadataColumns ⟨"id", "content", "embedding", some ["a"], none⟩ ++
        ["id", "content", "embedding"] ∧
    addTextsColumns ⟨"id", "content", "embedding", some ["a"], none⟩
        (fun ts => ts.map (fun _ => Value.varr [])) ["t"] [[]] (some ["x"]) ≠
      storeColumnsToInsert ⟨"id", "content", "embedding", some ["a"], none⟩ ∧
    (∀ i, (addTextsRows ⟨"id", "content", "embedding", some ["a"], none⟩
        (fun ts => ts.map (fun _ => Value.varr [])) ["t"] [[]] (some ["x"]))[i]? =
      if i < (["t"] : List String).length then
        some ((addTextsValuesDict ⟨"id", "content", "embedding", some ["a"], none⟩
          (fun ts => ts.map (fun _ => Value.varr [])) ["t"] [[]] (some ["x"])).map
            (fun p => p.2.getD i Value.vnull))
      else none)) :=
  ⟨by decide, by decide, by decide,
    claim_C5_amended ⟨"id", "content", "embedding", some ["a"], none⟩
      (fun ts => ts.map (fun _ => Value.varr [])) ["t"] [[]] ["x"]
      (by decide) (by decide) (by decide) (by decide)
      (by decide) (by decide) (by decide) (by decide)⟩

/-! Claim C10: in-place mutation of caller metadata dicts by the JSON
catch-all handling of `add_texts`. -/

/-- C10: on a store with JSON catch-all column `j`, `add_texts` leaves
each caller-supplied metadata dict extended in place with the key `j`
(appended at the end, on first ingestion), while the value list stored in
the JSON column's slot holds, per row, the `JsonObject` copy of the dict
taken BEFORE the key was inserted — so the serialized catch-all value
does not contain the catch-all key itself. -/
theorem claim_C10_json_mutation (cfg : StoreConfig) (table_name : String)
    (embedFn : List String → List Value) (texts : List String)
    (mdsIn : List Md) (ids : Option (List String)) (B : Nat) (j : String)
    (hj : cfg.metadata_json_column = some j)
    (htx : texts ≠ [])
    (hlen : mdsIn.length = texts.length)
    (hids : ∀ l, ids = some l → l.length = texts.length)
    (hnd : (storeMetadataColumns cfg).Nodup)
    (hjm : j ∈ storeMetadataColumns cfg)
    (hji : j ≠ cfg.id_column) (hjc : j ≠ cfg.content_column)
    (hje : j ≠ cfg.embedding_column)
    (hfresh : ∀ md ∈ mdsIn, j ∉ keysOf md) :
    (add_texts cfg table_name embedFn texts (some mdsIn) ids B).metadatas_out =
      some (mdsIn.map (fun md => md ++ [(j, Value.vjson md)])) ∧
    (∀ md ∈ mdsIn, keysOf (md ++ [(j, Value.vjson md)]) = keysOf md ++ [j]) ∧
    odGet (addTextsValuesDict cfg embedFn texts mdsIn ids) j =
      some (mdsIn.map (fun md => Value.vjson md)) := by
  have hproc : ∀ md ∈ mdsIn,
      processRowMetadata cfg.metadata_json_column md = md ++ [(j, Value.vjson md)] := by
    intro md hmd
    rw [hj]
    simp only [processRowMetadata]
    exact odSet_of_not_mem _ (hfresh md hmd)
  refine ⟨?_, ?_, ?_⟩
  · rw [add_texts_metadatas_out cfg table_name embedFn texts mdsIn ids B
      (fun h => htx (List.length_eq_zero.mp h)) hids hlen]
    rw [metadataLoop_fst]
    exact congrArg some (List.map_congr_left hproc)
  · intro md hmd
    simp [keysOf]
  · rw [odGet_addTextsValuesDict_meta cfg embedFn texts mdsIn ids j hnd hjm hji hjc hje]
    refine congrArg some (List.map_congr_left ?_)
    intro md hmd
    rw [hj]
    simp only [processRowMetadata]
    rw [mdGet_eq_odGet, odGet_odSet_self]
    rfl

/-- Witness for C10: one caller dict `{"a": "x"}` on a store whose JSON
catch-all column is `meta`. -/
theorem claim_C10_json_mutation_witness :
    ((⟨"id", "content", "embedding", some ["a"], some "meta"⟩ :
        StoreConfig).metadata_json_column = some "meta") ∧
    (["t"] : List String) ≠ [] ∧
    ([[("a", Value.vstr "x")]] : List Md).length = (["t"] : List String).length ∧
    (∀ md ∈ ([[("a", Value.vstr "x")]] : List Md), "meta" ∉ keysOf md) ∧
    ((add_texts ⟨"id", "content", "embedding", some ["a"], some "meta"⟩ "tbl"
        (fun ts => ts.map (fun _ => Value.varr [])) ["t"]
        (some [[("a", Value.vstr "x")]]) none 5000).metadatas_out =
      some (([[("a", Value.vstr "x")]] : List Md).map
        (fun md => md ++ [("meta", Value.vjson md)])) ∧
    (∀ md ∈ ([[("a", Value.vstr "x")]] : List Md),
      keysOf (md ++ [("meta", Value.vjson md)]) = keysOf md ++ ["meta"]) ∧
    odGet (addTextsValuesDict ⟨"id", "content", "embedding", some ["a"], some "meta"⟩
        (fun ts => ts.map (fun _ => Value.varr [])) ["t"]
        [[("a", Value.vstr "x")]] none) "meta" =
      some (([[("a", Value.vstr "x")]] : List Md).map
        (fun md => Value.vjson md))) :=
  ⟨rfl, by simp, rfl, by decide,
    claim_C10_json_mutation ⟨"id", "content", "embedding", some ["a"], some "meta"⟩
      "tbl" (fun ts => ts.map (fun _ => Value.varr [])) ["t"]
      [[("a", Value.vstr "x")]] none 5000 "meta"
      rfl (by simp) rfl (fun l h => by cases h) (by decide) (by decide)
      (by decide) (by decide) (by decide) (by decide)⟩

/-! Claim C6: the length-mismatch guard of `add_texts`. -/

/-- C6 counterexample: with an empty texts list and a non-empty ids list
the lengths differ, yet the call returns successfully (the empty-input
short-circuit runs BEFORE the length asserts), contradicting the claim
that every mismatched call fails with a validation error. -/
theorem claim_C6_counterexample :
    (["x"] : List String).length ≠ ([] : List String).length ∧
    add_texts ⟨"id", "content", "embedding", none, none⟩ "tbl"
        (fun ts => ts.map (fun _ => Value.varr [])) [] none (some ["x"]) 5000 =
      ⟨[], none, Except.ok []⟩ :=
  ⟨by decide, rfl⟩

/-- C6 amended: for a NON-EMPTY texts list, a supplied ids or metadatas
list of the wrong length makes `add_texts` fail with the assert error,
with zero collaborator calls (no embedding call, no write) and the
caller's metadatas left untouched. -/
theorem claim_C6_amended (cfg : StoreConfig) (table_name : String)
    (embedFn : List String → List Value) (texts : List String)
    (metadatas : Option (List Md)) (ids : Option (List String)) (B : Nat)
    (htx : texts ≠ [])
    (hbad : (∃ l, ids = some l ∧ l.length ≠ texts.length) ∨
      ((∀ l, ids = some l → l.length = texts.length) ∧
        ∃ m, metadatas = some m ∧ m.length ≠ texts.length)) :
    (add_texts cfg table_name embedFn texts metadatas ids B).effects = [] ∧
    (add_texts cfg table_name embedFn texts metadatas ids B).metadatas_out = metadatas ∧
    ∃ e, (add_texts cfg table_name embedFn texts metadatas ids B).ret =
      Except.error e := by
  have h0 : ¬ texts.length = 0 := fun h => htx (List.length_eq_zero.mp h)
  have hres : add_texts cfg table_name embedFn texts metadatas ids B =
      ⟨[], metadatas, .error "assert len(ids) == number_of_records"⟩ ∨
      add_texts cfg table_name embedFn texts metadatas ids B =
      ⟨[], metadatas, .error "assert len(metadatas) == number_of_records"⟩ := by
    rcases hbad with ⟨l, hl, hne⟩ | ⟨hok, m, hm, hne⟩
    · left
      have hc : lengthCheck ids texts.length = true := by
        simp [lengthCheck, hl, hne]
      simp only [add_texts]
      rw [if_neg h0, hc]
      simp
    · right
      have hc : lengthCheck metadatas texts.length = true := by
        simp [lengthCheck, hm, hne]
      simp only [add_texts]
      rw [if_neg h0, lengthCheckFalse ids texts.length hok, hc]
      simp
  rcases hres with h | h <;> rw [h]
  · exact ⟨rfl, rfl, _, rfl⟩
  · exact ⟨rfl, rfl, _, rfl⟩

/-- Witness for the amended C6 theorem: one text, two ids. -/
theorem claim_C6_amended_witness :
    (["t"] : List String) ≠ [] ∧
    (some ["x", "y"] = some ["x", "y"] ∧ (["x", "y"] : List String).length ≠
      (["t"] : List String).length) ∧
    ((add_texts ⟨"id", "content", "embedding", none, none⟩ "tbl"
        (fun ts => ts.map (fun _ => Value.varr [])) ["t"] none (some ["x", "y"])
        5000).effects = [] ∧
    (add_texts ⟨"id", "content", "embedding", none, none⟩ "tbl"
        (fun ts => ts.map (fun _ => Value.varr [])) ["t"] none (some ["x", "y"])
        5000).metadatas_out = none ∧
    ∃ e, (add_texts ⟨"id", "content", "embedding", none, none⟩ "tbl"
        (fun ts => ts.map (fun _ => Value.varr [])) ["t"] none (some ["x", "y"])
        5000).ret = Except.error e) :=
  ⟨by simp, ⟨rfl, by decide⟩,
    claim_C6_amended ⟨"id", "content", "embedding", none, none⟩ "tbl"
      (fun ts => ts.map (fun _ => Value.varr [])) ["t"] none (some ["x", "y"]) 5000
      (by simp) (Or.inl ⟨["x", "y"], rfl, by decide⟩)⟩

/-! Embedding of the `delete` method (claims C7 and C8). -/

/-- One `transaction.execute_update(dml=...)` call issued by `delete`. -/
inductive DeleteEffect where
  | executeUpdate (dml : String)

/-- The `sql_query` string of `delete_records`, whitespace included:
`column_expression` is the parenthesized comma-join of the columns, and
the placeholder is the comma-join of the (re-parenthesized) value
literals. -/
def delete_sql (table_name : String) (columns : List String)
    (values : List String) : String :=
  "\n                DELETE FROM " ++ table_name ++ " " ++
    "\n                WHERE " ++ "(" ++ String.intercalate ", " columns ++ ")" ++
    " IN " ++ String.intercalate ", " (values.map (fun elem => "(" ++ elem ++ ")")) ++
    "\n                "

/-- `delete` from the source: raises when BOTH ids and documents are
absent; otherwise builds the per-id quoted tuples from ids when supplied
— silently leaving columns and values empty in the documents-only case
(the document branch is a `pass` stub) — and always runs the transaction
with the assembled DELETE statement, returning `True`. -/
def delete (cfg : StoreConfig) (table_name : String) (ids : Option (List String))
    (documents : Option (List DocumentM)) : List DeleteEffect × Except String Bool :=
  match ids, documents with
  | none, none => ([], .error "Pass id/documents to delete")
  | _, _ =>
    let columns := match ids with | some _ => [cfg.id_column] | none => []
    let values := match ids with
      | some l => l.map (fun v => "('" ++ v ++ "')")
      | none => []
    ([DeleteEffect.executeUpdate (delete_sql table_name columns values)], .ok true)

/-- C7 counterexample: `delete` with an empty ids list does NOT fail with
a client-side precondition error — it executes one DELETE statement with
an empty IN list and returns success. -/
theorem claim_C7_counterexample :
    delete ⟨"id", "content", "embedding", none, none⟩ "tbl" (some []) none =
      ([DeleteEffect.executeUpdate
        "\n                DELETE FROM tbl \n                WHERE (id) IN \n                "],
        Except.ok true) := rfl

/-- C7 amended: `delete` with neither ids nor documents raises the
validation error without executing anything; `delete` with an empty ids
list proceeds instead, executing exactly one DELETE statement whose IN
list is empty and returning success. -/
theorem claim_C7_amended (cfg : StoreConfig) (table_name : String) :
    delete cfg table_name none none = ([], Except.error "Pass id/documents to delete") ∧
    delete cfg table_name (some []) none =
      ([DeleteEffect.executeUpdate (delete_sql table_name [cfg.id_column] [])],
        Except.ok true) :=
  ⟨rfl, rfl⟩

/-- C8 counterexample: `delete` with documents only raises no
unsupported-operation error: it ignores the documents (the branch is a
`pass` stub), executes one DELETE statement with an empty column tuple
and empty IN list, and returns success. -/
theorem claim_C8_counterexample :
    delete ⟨"id", "content", "embedding", none, none⟩ "tbl" none
        (some [⟨Value.vstr "c", Value.vjson []⟩]) =
      ([DeleteEffect.executeUpdate
        "\n                DELETE FROM tbl \n                WHERE () IN \n                "],
        Except.ok true) := rfl

/-- C8 amended: for EVERY documents list, `delete` with documents only
silently ignores the documents: it executes exactly one DELETE statement
built from empty columns and values (independent of the documents) and
returns success, raising no unsupported-operation error. -/
theorem claim_C8_amended (cfg : StoreConfig) (table_name : String)
    (docs : List DocumentM) :
    delete cfg table_name none (some docs) =
      ([DeleteEffect.executeUpdate (delete_sql table_name [] [])], Except.ok true) := rfl

/-! Embedding of the DDL generation (`TableColumn`, `_generate_sql`),
claims C4 and C9. -/

/-- The `TableColumn` dataclass: column name, SQL type, nullability. -/
structure TableColumn where
  name : String
  type : String
  is_null : Bool := true

/-- `TableColumn.__post_init__`: constructing a column raises `ValueError`
when `name` or `type` is `None`; nothing else is validated (an empty
string passes). Captured as a checked constructor over optional
arguments. -/
def TableColumn.make (name : Option String) (type : Option String)
    (is_null : Bool) : Except String TableColumn :=
  match name with
  | none => Except.error "column_name is mandatory and cannot be None."
  | some n =>
    match type with
    | none => Except.error "type is mandatory and cannot be None."
    | some t => Except.ok ⟨n, t, is_null⟩

/-- One extra column's rendering in `_generate_sql`, before the
separator: name, space, type, and ` NOT NULL` when not nullable. -/
def renderColumnBody (c : TableColumn) : String :=
  "  " ++ c.name ++ " " ++ c.type ++ (if c.is_null then "" else " NOT NULL")

/-- One extra column's full line, with the trailing `,\n` separator. -/
def renderColumnConfig (c : TableColumn) : String :=
  renderColumnBody c ++ ",\n"

/-- The `for column_config in column_configs` loop of `_generate_sql`. -/
def renderColumnConfigs : List TableColumn → String
  | [] => ""
  | c :: cs => renderColumnConfig c ++ renderColumnConfigs cs

/-- Python `str.rstrip(",\n")`: drop every trailing character belonging
to the set `{',', '\n'}`. -/
def pyRstripCommaNL (s : String) : String :=
  String.mk ((s.data.reverse.dropWhile (fun ch => ch == ',' || ch == '\n')).reverse)

/-- `_generate_sql` from the source: base columns per dialect, extra
columns, then the dialect-specific primary-key placement (in-body for
POSTGRESQL; appended after `rstrip(",\n")` for Google SQL). -/
def generate_sql (dialect : DatabaseDialect) (table_name : String)
    (id_column content_column embedding_column : String)
    (column_configs : List TableColumn) : String :=
  let sql := "CREATE TABLE " ++ table_name ++ " (\n"
  let sql := sql ++
    (if dialect = DatabaseDialect.POSTGRESQL then
      "  " ++ id_column ++ " varchar(36) DEFAULT (spanner.generate_uuid()),\n" ++
        "  " ++ content_column ++ " text,\n" ++
        "  " ++ embedding_column ++ " float8[],\n"
    else
      "  " ++ id_column ++ " STRING(36) DEFAULT (GENERATE_UUID()),\n" ++
        "  " ++ content_column ++ " STRING(MAX),\n" ++
        "  " ++ embedding_column ++ " ARRAY<FLOAT64>,\n")
  let sql := sql ++ renderColumnConfigs column_configs
  if dialect = DatabaseDialect.POSTGRESQL then
    sql ++ "  PRIMARY KEY(" ++ id_column ++ ")\n)"
  else
    pyRstripCommaNL sql ++ "\n) PRIMARY KEY(" ++ id_column ++ ")"

/-- The extra columns as the claim's Google-SQL shape renders them: the
`,\n` separator BEFORE each column line, so the last line carries no
trailing separator. -/
def googleColumnsRendered : List TableColumn → String
  | [] => ""
  | c :: cs => ",\n" ++ renderColumnBody c ++ googleColumnsRendered cs

theorem str_append_assoc (a b c : String) : a ++ b ++ c = a ++ (b ++ c) := by
  apply String.ext
  simp [String.data_append]

theorem str_append_empty (a : String) : a ++ "" = a := by
  apply String.ext
  rw [String.data_append]
  simp

/-- A string ends safely for `rstrip(",\n")`: its last character (if any)
is not one of the stripped characters. -/
def lastOkStr (s : String) : Prop :=
  ∀ ch, s.data.getLast? = some ch → ch ≠ ',' ∧ ch ≠ '\n'

theorem pyRstripCommaNL_append_sep (u : String) (hu : lastOkStr u) :
    pyRstripCommaNL (u ++ ",\n") = u := by
  apply String.ext
  show ((u ++ ",\n").data.reverse.dropWhile (fun ch => ch == ',' || ch == '\n')).reverse
    = u.data
  rw [String.data_append, show (",\n" : String).data = [',', '\n'] from rfl,
    List.reverse_append, show ([',', '\n'] : List Char).reverse = ['\n', ','] from rfl]
  rw [List.cons_append, List.cons_append, List.nil_append,
    List.dropWhile_cons_of_pos (by decide), List.dropWhile_cons_of_pos (by decide)]
  have hstay : u.data.reverse.dropWhile (fun ch => ch == ',' || ch == '\n') =
      u.data.reverse := by
    cases hrev : u.data.reverse with
    | nil => rfl
    | cons h t =>
      have hlast : u.data.getLast? = some h := by
        rw [List.getLast?_eq_head?_reverse, hrev]
        rfl
      have hne := hu h hlast
      rw [List.dropWhile_cons_of_neg]
      simp [hne.1, hne.2]
  rw [hstay, List.reverse_reverse]

/-- The rendered body of a column ends safely whatever precedes it, as
long as its declared type does not end in `,` or `\n`. -/
theorem lastOk_append_body (x : String) (c : TableColumn)
    (hc : ∀ ch, c.type.data.getLast? = some ch → ch ≠ ',' ∧ ch ≠ '\n') :
    lastOkStr (x ++ renderColumnBody c) := by
  intro ch hch
  rw [String.data_append, List.getLast?_append] at hch
  have hbody : ∀ ch', (renderColumnBody c).data.getLast? = some ch' →
      ch' ≠ ',' ∧ ch' ≠ '\n' := by
    intro ch' hch'
    rw [renderColumnBody] at hch'
    cases hn : c.is_null with
    | false =>
      rw [hn] at hch'
      simp only [Bool.false_eq_true, if_false] at hch'
      rw [String.data_append, List.getLast?_append,
        show (" NOT NULL" : String).data.getLast? = some 'L' from rfl] at hch'
      simp only [Option.or_some] at hch'
      cases hch'
      exact ⟨by decide, by decide⟩
    | true =>
      rw [hn] at hch'
      simp only [if_true] at hch'
      rw [str_append_empty, String.data_append, List.getLast?_append] at hch'
      cases ht : c.type.data.getLast? with
      | some tch =>
        rw [ht] at hch'
        simp only [Option.or_some, Option.some.injEq] at hch'
        subst hch'
        exact hc tch ht
      | none =>
        rw [ht] at hch'
        simp only [Option.none_or] at hch'
        rw [String.data_append, List.getLast?_append,
          show (" " : String).data.getLast? = some ' ' from rfl] at hch'
        simp only [Option.or_some] at hch'
        cases hch'
        exact ⟨by decide, by decide⟩
  cases hb : (renderColumnBody c).data.getLast? with
  | some bch =>
    rw [hb] at hch
    simp only [Option.or_some, Option.some.injEq] at hch
    subst hch
    exact hbody bch hb
  | none =>
    rw [hb] at hch
    simp only [Option.none_or] at hch
    have : (renderColumnBody c).data ≠ [] := by
      rw [renderColumnBody]
      intro he
      have := congrArg List.length he
      rw [String.data_append] at this
      simp [String.data_append] at this
    exact absurd (List.getLast?_eq_none_iff.mp hb) this

/-- The trimmed Google-SQL body: stripping the final separator of the
assembled column block turns the trailing-separator rendering into the
separator-before rendering. -/
theorem pyRstrip_gen : ∀ (configs : List TableColumn) (U : String), lastOkStr U →
    (∀ c ∈ configs, ∀ ch, c.type.data.getLast? = some ch → ch ≠ ',' ∧ ch ≠ '\n') →
    pyRstripCommaNL (U ++ (",\n" ++ renderColumnConfigs configs)) =
      U ++ googleColumnsRendered configs := by
  intro configs
  induction configs with
  | nil =>
    intro U hU _
    rw [renderColumnConfigs, googleColumnsRendered, str_append_empty, str_append_empty]
    exact pyRstripCommaNL_append_sep U hU
  | cons c cs ih =>
    intro U hU hsafe
    have hstep : U ++ (",\n" ++ renderColumnConfigs (c :: cs)) =
        (U ++ (",\n" ++ renderColumnBody c)) ++ (",\n" ++ renderColumnConfigs cs) := by
      rw [renderColumnConfigs, renderColumnConfig]
      simp [str_append_assoc]
    rw [hstep, ih (U ++ (",\n" ++ renderColumnBody c))
      (by
        have := lastOk_append_body (U ++ ",\n") c
          (hsafe c (List.mem_cons_self c cs))
        rw [str_append_assoc] at this
        exact this)
      (fun c' hc' => hsafe c' (List.mem_cons_of_mem _ hc'))]
    rw [googleColumnsRendered]
    simp [str_append_assoc]

/-- C4: for both dialects the CREATE TABLE statement declares id, content
and embedding (with the dialect's types) followed by the extra columns in
caller order, each rendered as `<name> <sqlType>` with ` NOT NULL` added
exactly when not nullable; POSTGRESQL writes `PRIMARY KEY(<id>)` inside
the body before the closing parenthesis, Google SQL trims the trailing
`,\n` separator and appends `PRIMARY KEY(<id>)` after the closing
parenthesis. The hypothesis restricts extra-column types to ones not
ending in `,` or `\n` (otherwise `rstrip` would trim further than the
separator). -/
theorem claim_C4_create_table (table_name id_column content_column
    embedding_column : String) (configs : List TableColumn)
    (hsafe : ∀ c ∈ configs, ∀ ch, c.type.data.getLast? = some ch →
      ch ≠ ',' ∧ ch ≠ '\n') :
    generate_sql DatabaseDialect.POSTGRESQL table_name id_column content_column
        embedding_column configs =
      "CREATE TABLE " ++ table_name ++ " (\n" ++
        ("  " ++ id_column ++ " varchar(36) DEFAULT (spanner.generate_uuid()),\n" ++
          "  " ++ content_column ++ " text,\n" ++
          "  " ++ embedding_column ++ " float8[],\n") ++
        renderColumnConfigs configs ++
        "  PRIMARY KEY(" ++ id_column ++ ")\n)" ∧
    generate_sql DatabaseDialect.GOOGLE_STANDARD_SQL table_name id_column
        content_column embedding_column configs =
      "CREATE TABLE " ++ table_name ++ " (\n" ++
        ("  " ++ id_column ++ " STRING(36) DEFAULT (GENERATE_UUID()),\n" ++
          "  " ++ content_column ++ " STRING(MAX),\n" ++
          "  " ++ embedding_column ++ " ARRAY<FLOAT64>") ++
        googleColumnsRendered configs ++
        "\n) PRIMARY KEY(" ++ id_column ++ ")" := by
  constructor
  · simp only [generate_sql, if_true]
  · simp only [generate_sql]
    rw [if_neg (by decide), if_neg (by decide)]
    have harg : "CREATE TABLE " ++ table_name ++ " (\n" ++
        ("  " ++ id_column ++ " STRING(36) DEFAULT (GENERATE_UUID()),\n" ++
          "  " ++ content_column ++ " STRING(MAX),\n" ++
          "  " ++ embedding_column ++ " ARRAY<FLOAT64>,\n") ++
        renderColumnConfigs configs =
        ("CREATE TABLE " ++ table_name ++ " (\n" ++
          ("  " ++ id_column ++ " STRING(36) DEFAULT (GENERATE_UUID()),\n" ++
            "  " ++ content_column ++ " STRING(MAX),\n" ++
            "  " ++ embedding_column ++ " ARRAY<FLOAT64>")) ++
          (",\n" ++ renderColumnConfigs configs) := by
      apply String.ext
      simp only [String.data_append]
      simp [List.append_assoc, List.cons_append]
    have hU0 : lastOkStr ("CREATE TABLE " ++ table_name ++ " (\n" ++
        ("  " ++ id_column ++ " STRING(36) DEFAULT (GENERATE_UUID()),\n" ++
          "  " ++ content_column ++ " STRING(MAX),\n" ++
          "  " ++ embedding_column ++ " ARRAY<FLOAT64>")) := by
      intro ch hch
      rw [String.data_append, List.getLast?_append, String.data_append,
        List.getLast?_append,
        show (" ARRAY<FLOAT64>" : String).data.getLast? = some '>' from rfl] at hch
      simp only [Option.or_some, Option.some.injEq] at hch
      subst hch
      exact ⟨by decide, by decide⟩
    rw [harg, pyRstrip_gen configs _ hU0 hsafe]

/-- Witness for C4 at a concrete table: one nullable and one NOT NULL
extra column. -/
theorem claim_C4_create_table_witness :
    (∀ c ∈ [TableColumn.mk "genre" "STRING(100)" true,
        TableColumn.mk "plays" "INT64" false], ∀ ch,
      c.type.data.getLast? = some ch → ch ≠ ',' ∧ ch ≠ '\n') ∧
    (generate_sql DatabaseDialect.POSTGRESQL "Songs" "sid" "body" "vec"
        [TableColumn.mk "genre" "STRING(100)" true,
          TableColumn.mk "plays" "INT64" false] =
      "CREATE TABLE Songs (\n" ++
        ("  sid varchar(36) DEFAULT (spanner.generate_uuid()),\n" ++
          "  body text,\n" ++
          "  vec float8[],\n") ++
        renderColumnConfigs [TableColumn.mk "genre" "STRING(100)" true,
          TableColumn.mk "plays" "INT64" false] ++
        "  PRIMARY KEY(sid)\n)" ∧
    generate_sql DatabaseDialect.GOOGLE_STANDARD_SQL "Songs" "sid" "body" "vec"
        [TableColumn.mk "genre" "STRING(100)" true,
          TableColumn.mk "plays" "INT64" false] =
      "CREATE TABLE Songs (\n" ++
        ("  sid STRING(36) DEFAULT (GENERATE_UUID()),\n" ++
          "  body STRING(MAX),\n" ++
          "  vec ARRAY<FLOAT64>") ++
        googleColumnsRendered [TableColumn.mk "genre" "STRING(100)" true,
          TableColumn.mk "plays" "INT64" false] ++
        "\n) PRIMARY KEY(sid)") :=
  ⟨by decide,
    by
      have h := claim_C4_create_table "Songs" "sid" "body" "vec"
        [TableColumn.mk "genre" "STRING(100)" true,
          TableColumn.mk "plays" "INT64" false] (by decide)
      simpa using h⟩

/-- C9 counterexample: an empty id column name raises nothing —
`_generate_sql` happily assembles the statement around the empty
identifier; likewise a `TableColumn` with an empty (but not `None`) type
constructs successfully. The claimed configuration error exists only for
`None` (unset) values. -/
theorem claim_C9_counterexample :
    generate_sql DatabaseDialect.GOOGLE_STANDARD_SQL "Songs" "" "content"
        "embedding" [] =
      "CREATE TABLE Songs (\n   STRING(36) DEFAULT (GENERATE_UUID()),\n  content STRING(MAX),\n  embedding ARRAY<FLOAT64>\n) PRIMARY KEY()" ∧
    TableColumn.make (some "m") (some "") true = Except.ok ⟨"m", "", true⟩ := by
  constructor
  · rfl
  · rfl

/-- C9 amended: the only validation performed before SQL assembly is
`TableColumn.__post_init__`, which rejects an unset (`None`) name or
type; empty strings — including an empty id column name — are not
rejected and reach SQL assembly. -/
theorem claim_C9_amended :
    (∀ (t : Option String) (b : Bool), TableColumn.make none t b =
      Except.error "column_name is mandatory and cannot be None.") ∧
    (∀ (n : String) (b : Bool), TableColumn.make (some n) none b =
      Except.error "type is mandatory and cannot be None.") ∧
    (∀ (n t : String) (b : Bool), TableColumn.make (some n) (some t) b =
      Except.ok ⟨n, t, b⟩) :=
  ⟨fun t b => rfl, fun n b => rfl, fun n t b => rfl⟩

end SpannerVS
